import Mathlib

/-! The streaming export pipeline of pgs3backup.

A shallow embedding of `internal/dump/dump_sql.go` and `internal/s3/s3.go`.

* A Go `string` and a Go `[]byte` are both sequences of bytes: `GoString`.
* The database driver is an explicit environment `DB`: what each query answers,
  which rows a cursor yields, which `Scan` fails and which error ends an iteration.
* The standard-library collaborators the program drives (`encoding/csv.Writer`,
  `archive/tar.Writer`, `io.Pipe`, `time.Time.Format`) are modelled after their
  documented behaviour; each definition says which library routine it stands for.
* The goroutine started by `Dump` is the only writer of the pipe, so its run is a
  sequential state-passing function; the reader is taken to drain the pipe and never to
  close its end, so the final `Pipe` value is exactly what the reader observes: the
  bytes delivered, then the terminal error.
-/

set_option maxRecDepth 100000

namespace PgS3Backup

/-! ## Strings and errors -/

abbrev Byte := UInt8

/-- Go `string` / `[]byte`: a finite sequence of bytes. -/
abbrev GoString := List Byte

/-- A Go string literal: the UTF-8 bytes of the source text. -/
def lit (s : String) : GoString := s.toUTF8.data.toList

/-- Go `error` values that occur in the pipeline. -/
inductive Err where
  /-- an error reported by the database driver (or by `database/sql`) -/
  | driver (msg : String)
  /-- `fmt.Errorf(ctx ++ ": %w", inner)` -/
  | wrapped (ctx : GoString) (inner : Err)
  /-- `io.EOF` -/
  | EOF
  /-- `io.ErrClosedPipe` -/
  | ErrClosedPipe
  /-- `tar.ErrWriteTooLong` -/
  | ErrWriteTooLong
  /-- `tar.ErrWriteAfterClose` -/
  | ErrWriteAfterClose
  /-- `archive/tar: missed writing n bytes` -/
  | missedWriting (n : Nat)
  deriving DecidableEq, Repr

/-- Result of a fallible call: the Go pair `(value, error)`. -/
inductive Res (α : Type) where
  | ok (a : α)
  | fail (e : Err)
  deriving DecidableEq, Repr

/-- A `*sql.Rows` cursor as the program sees it: each `rows.Next()` that returns true is
followed by a `rows.Scan` that either decodes the row or fails; when `Next` returns false
`rows.Err()` reports `err`. -/
structure Rows (α : Type) where
  scans : List (Res α)
  err : Option Err
  deriving DecidableEq, Repr

/-! ## encoding/csv: Writer -/

/-- Go `unicode.IsSpace` of the first rune of the string, as `utf8.DecodeRuneInString`
decodes it: the white-space runes are U+0009..U+000D, U+0020, U+0085, U+00A0, U+1680,
U+2000..U+200A, U+2028, U+2029, U+202F, U+205F, U+3000, and a rune is decoded from its
shortest UTF-8 form only. -/
def firstRuneIsSpace : GoString → Bool
  | 0x09 :: _ => true
  | 0x0a :: _ => true
  | 0x0b :: _ => true
  | 0x0c :: _ => true
  | 0x0d :: _ => true
  | 0x20 :: _ => true
  | 0xc2 :: 0x85 :: _ => true
  | 0xc2 :: 0xa0 :: _ => true
  | 0xe1 :: 0x9a :: 0x80 :: _ => true
  | 0xe2 :: 0x80 :: c :: _ => (0x80 ≤ c && c ≤ 0x8a) || c == 0xa8 || c == 0xa9 || c == 0xaf
  | 0xe2 :: 0x81 :: 0x9f :: _ => true
  | 0xe3 :: 0x80 :: 0x80 :: _ => true
  | _ => false

/-- The bytes that force quoting when `Comma` is the comma: newline, carriage return, double
quote, comma. -/
def isSpecial (c : Byte) : Bool := c == 10 || c == 13 || c == 34 || c == 44

/-- Go `(*csv.Writer).fieldNeedsQuotes` with the comma as `Comma`. -/
def fieldNeedsQuotes (field : GoString) : Bool :=
  if field = [] then false
  else if field = lit "\\." then true
  else if field.any isSpecial then true
  else firstRuneIsSpace field

/-- The body of a quoted field as `(*csv.Writer).Write` emits it with `UseCRLF = false`:
a double quote is written twice, every other byte (carriage return and newline included)
is written as it is. -/
def writeQuoted : GoString → GoString
  | [] => []
  | c :: cs => (if c = 34 then [34, 34] else [c]) ++ writeQuoted cs

/-- One field as `(*csv.Writer).Write` emits it. -/
def writeField (field : GoString) : GoString :=
  if fieldNeedsQuotes field then 34 :: (writeQuoted field ++ [34]) else field

/-- The fields of a record with a comma before every field but the first. -/
def writeFields : List GoString → GoString
  | [] => []
  | [f] => writeField f
  | f :: g :: fs => writeField f ++ 44 :: writeFields (g :: fs)

/-- Go `(*csv.Writer).Write(record)` for the writer `csv.NewWriter(&buf)` (comma as `Comma`,
`UseCRLF = false`): the bytes appended to the buffer once flushed. The underlying
`bytes.Buffer` never fails, so neither does `Write`. -/
def csvWrite (record : List GoString) : GoString :=
  writeFields record ++ [10]

/-! ## Reading a data document back

The repository has no reader; this is the record format the specification documents:
comma delimiter, quoted fields, doubled quotes inside quoted fields, newline terminates
each record. -/

/-- Where the reader stands inside a record. -/
inductive PState where
  /-- at the start of a field -/
  | fieldStart
  /-- inside an unquoted field -/
  | unquoted
  /-- inside a quoted field -/
  | quoted
  /-- just after a double quote met inside a quoted field -/
  | quoteSeen
  deriving DecidableEq, Repr

/-- The reader: `f` is the field read so far, `r` the fields of the current record, `rs`
the records completed. `none` is a malformed document. -/
def parseGo : PState → GoString → List GoString → List (List GoString) → GoString →
    Option (List (List GoString))
  | .fieldStart, _, r, rs, [] => if r = [] then some rs else some (rs ++ [r ++ [[]]])
  | .unquoted, f, r, rs, [] => some (rs ++ [r ++ [f]])
  | .quoted, _, _, _, [] => none
  | .quoteSeen, f, r, rs, [] => some (rs ++ [r ++ [f]])
  | .fieldStart, _, r, rs, c :: cs =>
    if c = 34 then parseGo .quoted [] r rs cs
    else if c = 44 then parseGo .fieldStart [] (r ++ [[]]) rs cs
    else if c = 10 then parseGo .fieldStart [] [] (rs ++ [r ++ [[]]]) cs
    else parseGo .unquoted [c] r rs cs
  | .unquoted, f, r, rs, c :: cs =>
    if c = 44 then parseGo .fieldStart [] (r ++ [f]) rs cs
    else if c = 10 then parseGo .fieldStart [] [] (rs ++ [r ++ [f]]) cs
    else if c = 34 then none
    else parseGo .unquoted (f ++ [c]) r rs cs
  | .quoted, f, r, rs, c :: cs =>
    if c = 34 then parseGo .quoteSeen f r rs cs
    else parseGo .quoted (f ++ [c]) r rs cs
  | .quoteSeen, f, r, rs, c :: cs =>
    if c = 34 then parseGo .quoted (f ++ [34]) r rs cs
    else if c = 44 then parseGo .fieldStart [] (r ++ [f]) rs cs
    else if c = 10 then parseGo .fieldStart [] [] (rs ++ [r ++ [f]]) cs
    else none

/-- Parse a data document into its records. -/
def parseCSV (doc : GoString) : Option (List (List GoString)) :=
  parseGo .fieldStart [] [] [] doc

/-! ## Row values and the record encoder -/

/-- A value the driver stores into an `interface{}` destination: SQL NULL (`nil`), a byte
sequence, or another dynamic type. `other` stands for the remaining driver types
(`float64`, `time.Time`) and carries the text `fmt.Sprint` gives for the value. -/
inductive Value where
  | null
  | bytes (b : GoString)
  | int (i : Int)
  | bool (b : Bool)
  | str (s : GoString)
  | other (text : GoString)
  deriving DecidableEq, Repr

/-- The decimal numerals of a byte slice separated by blanks, as `fmt.Sprint` prints the
elements of a `[]byte`. -/
def sprintBytes : GoString → GoString
  | [] => []
  | [b] => lit (toString b.toNat)
  | b :: c :: cs => lit (toString b.toNat) ++ 32 :: sprintBytes (c :: cs)

/-- Go `fmt.Sprint(v)`: the default textual representation. -/
def Sprint : Value → GoString
  | .null => lit "<nil>"
  | .bytes b => 91 :: (sprintBytes b ++ [93])
  | .int i => lit (toString i)
  | .bool b => if b then lit "true" else lit "false"
  | .str s => s
  | .other text => text

/-- The body of the loop `for i, v := range vals` in `writeTableCSV`: the field for one
scanned value. -/
def encodeValue (v : Value) : GoString :=
  match v with
  | .null => []
  | .bytes t => t
  | t => Sprint t

/-- The record `rec` built for one scanned row: `rec[i]` is the field of `vals[i]`. -/
def encodeRecord (vals : List Value) : List GoString :=
  vals.map encodeValue

/-- Go `rows.Scan(ptrs...)` with `len(ptrs) = ncols` destinations of type `*interface{}`:
it reports the failure of the driver, or a mismatch between the number of destinations and
the number of values of the row, and otherwise stores the values. -/
def scanRow (ncols : Nat) (r : Res (List Value)) : Res (List Value) :=
  match r with
  | .fail e => .fail e
  | .ok vals =>
    if vals.length = ncols then .ok vals
    else .fail (.driver "sql: expected destination arguments in Scan")

/-- The loop `for rows.Next()` of `writeTableCSV`: scans each row and appends its record
to the buffer `buf`; a failing `Scan` returns its error. -/
def encodeRows (ncols : Nat) : List (Res (List Value)) → GoString → Res GoString
  | [], buf => .ok buf
  | r :: rest, buf =>
    match scanRow ncols r with
    | .fail e => .fail e
    | .ok vals => encodeRows ncols rest (buf ++ csvWrite (encodeRecord vals))

/-- The data document of a table: the record of the column names, then one record per
row. -/
def tableDocument (cols : List GoString) (rows : List (List Value)) : GoString :=
  csvWrite cols ++ rows.flatMap (fun vals => csvWrite (encodeRecord vals))

/-! ## io.Pipe and archive/tar: Writer -/

/-- The header of an archive entry as the program fills it (`ModTime`, the wall clock at
the moment of writing, is left out). -/
structure Header where
  Name : GoString
  Mode : Nat
  Size : Nat
  deriving DecidableEq, Repr

/-- What travels through the pipe: an encoded entry header, or one byte of an entry body,
of padding or of the trailer. -/
inductive Token where
  | header (h : Header)
  | byte (b : Byte)
  deriving DecidableEq, Repr

/-- The pipe between the producer and the reader: the tokens delivered so far and the
error the write side was closed with (`io.EOF` for a plain `Close`). -/
structure Pipe where
  delivered : List Token
  werr : Option Err
  deriving DecidableEq, Repr

/-- Go `io.Pipe()`. -/
def Pipe.new : Pipe := { delivered := [], werr := none }

/-- Go `(*io.PipeWriter).Write`: fails with `io.ErrClosedPipe` once the write side is closed,
otherwise hands the data to the reader. -/
def Pipe.Write (p : Pipe) (b : List Token) : Pipe × Option Err :=
  match p.werr with
  | some _ => (p, some .ErrClosedPipe)
  | none => ({ p with delivered := p.delivered ++ b }, none)

/-- Go `(*io.PipeWriter).CloseWithError(err)`: records the error the reader will get unless
an earlier close already recorded one; a nil error is recorded as `io.EOF`. -/
def Pipe.CloseWithError (p : Pipe) (err : Option Err) : Pipe :=
  match p.werr with
  | some _ => p
  | none => { p with werr := some (err.getD .EOF) }

/-- Go `(*io.PipeWriter).Close()`, that is `CloseWithError(nil)`; it always returns nil. -/
def Pipe.Close (p : Pipe) : Pipe := p.CloseWithError none

/-- A `*tar.Writer` over the pipe writer: `nb` bytes of the current entry are still to be
written, `pad` bytes of padding are owed after it, `err` is the sticky error. -/
structure TarWriter where
  w : Pipe
  nb : Nat
  pad : Nat
  err : Option Err
  deriving DecidableEq, Repr

/-- Go `tar.NewWriter(pw)`. -/
def NewWriter (pw : Pipe) : TarWriter := { w := pw, nb := 0, pad := 0, err := none }

/-- Go `blockPadding`: the bytes needed to fill the last 512-byte block. -/
def blockPadding (n : Nat) : Nat := (512 - n % 512) % 512

/-- A run of `n` zero bytes. -/
def zeros (n : Nat) : List Token := List.replicate n (Token.byte 0)

/-- Go `(*tar.Writer).Flush`: completes the current entry by writing the padding owed. -/
def TarWriter.Flush (tw : TarWriter) : TarWriter × Option Err :=
  match tw.err with
  | some e => (tw, some e)
  | none =>
    if 0 < tw.nb then (tw, some (.missedWriting tw.nb))
    else
      match tw.w.Write (zeros tw.pad) with
      | (w, some e) => ({ tw with w := w, err := some e }, some e)
      | (w, none) => ({ tw with w := w, pad := 0 }, none)

/-- Go `(*tar.Writer).WriteHeader(hdr)` for a regular file whose header can be encoded (a
name without NUL bytes); the encoded header blocks are one `Token.header`. -/
def TarWriter.WriteHeader (tw : TarWriter) (hdr : Header) : TarWriter × Option Err :=
  match tw.Flush with
  | (tw1, some e) => (tw1, some e)
  | (tw1, none) =>
    match tw1.w.Write [Token.header hdr] with
    | (w, some e) => ({ tw1 with w := w, err := some e }, some e)
    | (w, none) =>
      ({ tw1 with w := w, nb := hdr.Size, pad := blockPadding hdr.Size, err := none }, none)

/-- Go `(*tar.Writer).Write(b)`: at most `nb` bytes are accepted; a longer `b` is cut and
reported as `ErrWriteTooLong`; an empty write does not reach the pipe. -/
def TarWriter.Write (tw : TarWriter) (b : GoString) : TarWriter × Option Err :=
  match tw.err with
  | some e => (tw, some e)
  | none =>
    let overwrite : Bool := decide (tw.nb < b.length)
    let b1 := if overwrite then b.take tw.nb else b
    if b1 = [] then (tw, if overwrite then some .ErrWriteTooLong else none)
    else
      match tw.w.Write (b1.map Token.byte) with
      | (w, some e) => ({ tw with w := w, err := some e }, some e)
      | (w, none) =>
        ({ tw with w := w, nb := tw.nb - b1.length },
          if overwrite then some .ErrWriteTooLong else none)

/-- The two zero blocks of the archive trailer, written while no write has failed:
the loop `for i := 0; i < 2 && err == nil; i++` of `(*tar.Writer).Close`. -/
def writeTrailer : Nat → Pipe → Option Err → Pipe × Option Err
  | 0, w, err => (w, err)
  | n + 1, w, err =>
    match err with
    | some e => (w, some e)
    | none =>
      match w.Write (zeros 512) with
      | (w1, e1) => writeTrailer n w1 e1

/-- Go `(*tar.Writer).Close`: flushes the padding and writes the trailer. -/
def TarWriter.Close (tw : TarWriter) : TarWriter × Option Err :=
  if tw.err = some .ErrWriteAfterClose then (tw, none)
  else
    match tw.err with
    | some e => (tw, some e)
    | none =>
      match tw.Flush with
      | (tw1, err) =>
        match writeTrailer 2 tw1.w err with
        | (w, err1) => ({ tw1 with w := w, err := some .ErrWriteAfterClose }, err1)

/-- Go `pw.CloseWithError(err)` seen from the archive writer that wraps `pw`. -/
def TarWriter.closePipe (tw : TarWriter) (err : Err) : TarWriter :=
  { tw with w := tw.w.CloseWithError (some err) }

/-! ## The database as the program sees it -/

/-- Go `sql.NullString`. -/
structure NullString where
  String : GoString
  Valid : Bool
  deriving DecidableEq, Repr

/-- One row of the catalog query of `buildCreateTable`, as `rows.Scan(&name, &dtype,
&isNull, &def)` stores it. -/
structure ColumnRow where
  name : NullString
  dtype : NullString
  isNull : NullString
  dflt : NullString
  deriving DecidableEq, Repr

/-- The answer to `SELECT * FROM ...`: what `rows.Columns()` returns and the cursor. -/
structure TableResult where
  columns : Res (List GoString)
  rows : Rows (List Value)
  deriving DecidableEq, Repr

/-- The database behind `sql.Open`: the result of opening it, of each query the program
issues, and of closing it. -/
structure DB where
  /-- the error of `sql.Open`, if any -/
  openErr : Option Err
  /-- the answer to the table discovery query of `listTables` -/
  tables : Res (Rows (GoString × GoString))
  /-- the answer to the catalog query of `buildCreateTable` for `(schema, table)` -/
  columns : GoString → GoString → Res (Rows ColumnRow)
  /-- the answer to the query text built by `writeTableCSV` -/
  select : GoString → Res TableResult
  /-- the error of `db.Close()`, if any -/
  closeErr : Option Err

/-- Go `tableRef`. -/
structure tableRef where
  schema : GoString
  name : GoString
  deriving DecidableEq, Repr

/-- The loop `for rows.Next()` of `listTables`. -/
def scanTables : List (Res (GoString × GoString)) → List tableRef → Res (List tableRef)
  | [], res => .ok res
  | .fail e :: _, _ => .fail e
  | .ok (s, n) :: rest, res => scanTables rest (res ++ [{ schema := s, name := n }])

/-- Go `(*Dumper).listTables`: the caller uses the list only when the error is nil, so
`return res, rows.Err()` with a non-nil error is a failure. -/
def listTables (db : DB) : Res (List tableRef) :=
  match db.tables with
  | .fail e => .fail e
  | .ok rows =>
    match scanTables rows.scans [] with
    | .fail e => .fail e
    | .ok res =>
      match rows.err with
      | some e => .fail e
      | none => .ok res

/-- The text of one column inside `CREATE TABLE`: the body of the loop of
`buildCreateTable` after a successful `Scan`. -/
def columnPart (c : ColumnRow) : GoString :=
  let part := lit "\t\"" ++ c.name.String ++ lit "\" " ++ c.dtype.String
  let part := if c.dflt.Valid && c.dflt.String != [] then
      part ++ (lit " DEFAULT " ++ c.dflt.String) else part
  if c.isNull.Valid && c.isNull.String == lit "NO" then part ++ lit " NOT NULL" else part

/-- The loop `for rows.Next()` of `buildCreateTable`. -/
def scanColumns : List (Res ColumnRow) → List GoString → Res (List GoString)
  | [], cols => .ok cols
  | .fail e :: _, _ => .fail e
  | .ok c :: rest, cols => scanColumns rest (cols ++ [columnPart c])

/-- Go `strings.Join`. -/
def Join : List GoString → GoString → GoString
  | [], _ => []
  | [a], _ => a
  | a :: b :: rest, sep => a ++ sep ++ Join (b :: rest) sep

/-- The statement `fmt.Sprintf("CREATE TABLE \"%s\".\"%s\" (\n%s\n);", ...)`. -/
def createStatement (schema table : GoString) (cols : List GoString) : GoString :=
  lit "CREATE TABLE \"" ++ schema ++ lit "\".\"" ++ table ++ lit "\" (\n"
    ++ Join cols (lit ",\n") ++ lit "\n);"

/-- Go `(*Dumper).buildCreateTable`. After the loop the function builds the statement from
the columns read; it does not consult `rows.Err()`. -/
def buildCreateTable (db : DB) (schema table : GoString) : Res GoString :=
  match db.columns schema table with
  | .fail e => .fail e
  | .ok rows =>
    match scanColumns rows.scans [] with
    | .fail e => .fail e
    | .ok cols => .ok (createStatement schema table cols)

/-- The function `writeTarFile`: a header declaring `len(data)` bytes, then the data. -/
def writeTarFile (tw : TarWriter) (name : GoString) (data : GoString) :
    TarWriter × Option Err :=
  let hdr : Header := { Name := name, Mode := 0o600, Size := data.length }
  match tw.WriteHeader hdr with
  | (tw1, some e) => (tw1, some e)
  | (tw1, none) => tw1.Write data

/-- The query text of `writeTableCSV`: `SELECT * FROM "<schema>"."<table>"`. -/
def selectQuery (schema table : GoString) : GoString :=
  lit "SELECT * FROM " ++ (lit "\"" ++ schema ++ lit "\".\"" ++ table ++ lit "\"")

/-- Go `(*Dumper).writeTableCSV`. The csv writer works on an in-memory buffer, so
`cw.Write` and `cw.Error()` never report an error. -/
def writeTableCSV (db : DB) (tw : TarWriter) (schema table filename : GoString) :
    TarWriter × Option Err :=
  match db.select (selectQuery schema table) with
  | .fail e => (tw, some e)
  | .ok res =>
    match res.columns with
    | .fail e => (tw, some e)
    | .ok cols =>
      match encodeRows cols.length res.rows.scans (csvWrite cols) with
      | .fail e => (tw, some e)
      | .ok buf =>
        let hdr : Header := { Name := filename, Mode := 0o600, Size := buf.length }
        match tw.WriteHeader hdr with
        | (tw1, some e) => (tw1, some e)
        | (tw1, none) =>
          match tw1.Write buf with
          | (tw2, some e) => (tw2, some e)
          | (tw2, none) => (tw2, res.rows.err)

/-- The name of the archive entry of a table: `fmt.Sprintf("data/%s.%s.csv", ...)`. -/
def dataName (t : tableRef) : GoString :=
  lit "data/" ++ t.schema ++ lit "." ++ t.name ++ lit ".csv"

/-- Step 2 of `Dump`: the schema document accumulated in `schemaBuf`, or the wrapped
error of the first `buildCreateTable` that fails. -/
def schemaLoop (db : DB) : List tableRef → GoString → Res GoString
  | [], buf => .ok buf
  | t :: ts, buf =>
    match buildCreateTable db t.schema t.name with
    | .fail e =>
      .fail (.wrapped (lit "ошибка построения CREATE TABLE для " ++ t.schema ++ lit "."
        ++ t.name) e)
    | .ok create => schemaLoop db ts (buf ++ create ++ lit "\n\n")

/-- Step 3 of `Dump`: one `writeTableCSV` per table, stopping at the first error, which
is returned wrapped. -/
def exportLoop (db : DB) : List tableRef → TarWriter → TarWriter × Option Err
  | [], tw => (tw, none)
  | t :: ts, tw =>
    match writeTableCSV db tw t.schema t.name (dataName t) with
    | (tw1, some e) =>
      (tw1, some (.wrapped (lit "ошибка экспорта таблицы " ++ t.schema ++ lit "."
        ++ t.name) e))
    | (tw1, none) => exportLoop db ts tw1

/-- The goroutine of `Dump` from `listTables` on, up to its `return`. -/
def dumpBody (db : DB) (tw : TarWriter) : TarWriter :=
  match listTables db with
  | .fail e => tw.closePipe (.wrapped (lit "ошибка получения списка таблиц") e)
  | .ok tables =>
    match schemaLoop db tables [] with
    | .fail e => tw.closePipe e
    | .ok schemaBuf =>
      match writeTarFile tw (lit "schema.sql") schemaBuf with
      | (tw1, some e) => tw1.closePipe (.wrapped (lit "ошибка записи schema.sql в tar") e)
      | (tw1, none) =>
        match exportLoop db tables tw1 with
        | (tw2, some e) => tw2.closePipe e
        | (tw2, none) => tw2

/-- The deferred `db.Close()`: its error, if any, is passed to `pw.CloseWithError`. -/
def deferDbClose (db : DB) (tw : TarWriter) : TarWriter :=
  match db.closeErr with
  | some e => tw.closePipe e
  | none => tw

/-- The deferred `tw.Close()`: its error, if any, is passed to `pw.CloseWithError`. -/
def deferTwClose (tw : TarWriter) : TarWriter :=
  match tw.Close with
  | (tw1, some e) => tw1.closePipe e
  | (tw1, none) => tw1

/-- Go `(*Dumper).Dump`: the run of the goroutine, deferred calls included (in the reverse
order of their registration: `db.Close`, `tw.Close`, `pw.Close`, the last of which
returns nil). The result is the pipe as the reader of the returned stream observes it. -/
def Dump (db : DB) : Pipe :=
  let tw0 := NewWriter Pipe.new
  let tw1 :=
    match db.openErr with
    | some e => tw0.closePipe (.wrapped (lit "ошибка открытия подключения к БД") e)
    | none => deferDbClose db (dumpBody db tw0)
  (deferTwClose tw1).w.Close

/-- The names of the entry headers in a token stream, in order. -/
def headerNames : List Token → List GoString
  | [] => []
  | .header h :: ts => h.Name :: headerNames ts
  | .byte _ :: ts => headerNames ts

/-! ## Upload: the destination key -/

/-- A Go `time.Time`: an instant and the offset of its location at that instant. -/
structure Time where
  /-- seconds since 1970-01-01 00:00:00 UTC -/
  unix : Int
  /-- seconds east of UTC of the location the time is expressed in -/
  offset : Int
  deriving DecidableEq, Repr

/-- Go `t.UTC()`: the same instant expressed in UTC. -/
def Time.UTC (t : Time) : Time := { unix := t.unix, offset := 0 }

/-- The proleptic Gregorian date `(year, month, day)` of a day number counted from
1970-01-01. -/
def civilFromDays (days : Int) : Int × Int × Int :=
  let z := days + 719468
  let era := z / 146097
  let doe := z - era * 146097
  let yoe := (doe - doe / 1460 + doe / 36524 - doe / 146096) / 365
  let doy := doe - (365 * yoe + yoe / 4 - yoe / 100)
  let mp := (5 * doy + 2) / 153
  let d := doy - (153 * mp + 2) / 5 + 1
  let m := if mp < 10 then mp + 3 else mp - 9
  let y := yoe + era * 400 + (if m ≤ 2 then 1 else 0)
  (y, m, d)

/-- Go `appendInt(b, x, width)`: decimal, zero-padded to `width`, with a minus sign in
front of a negative number. -/
def appendInt (x : Int) (width : Nat) : GoString :=
  let digits := lit (toString x.natAbs)
  let padded := List.replicate (width - digits.length) 48 ++ digits
  if x < 0 then 45 :: padded else padded

/-- Go `t.Format("2006-01-02_15-04-05")`: the wall clock of `t` in its own location. -/
def Time.Format (t : Time) : GoString :=
  let abs := t.unix + t.offset
  let (y, m, d) := civilFromDays (abs / 86400)
  let secs := abs % 86400
  appendInt y 4 ++ lit "-" ++ appendInt m 2 ++ lit "-" ++ appendInt d 2 ++ lit "_"
    ++ appendInt (secs / 3600) 2 ++ lit "-" ++ appendInt (secs % 3600 / 60) 2 ++ lit "-"
    ++ appendInt (secs % 60) 2

/-- The key computed by `(*Uploader).Upload`; `now` is the value of `time.Now()`, which
is expressed in the local time zone of the process. -/
def uploadKey (now : Time) (pfx dbName : GoString) (compressed : Bool) : GoString :=
  let timestamp := now.Format
  if compressed then pfx ++ lit "/" ++ dbName ++ lit "_" ++ timestamp ++ lit ".dump.gz"
  else pfx ++ lit "/" ++ dbName ++ lit "_" ++ timestamp ++ lit ".dump"

/-- Go `(*Uploader).Upload`: `store` is the object-store client, from the key it is given to
the location it returns or its failure. The result is the key sent and the Go result. -/
def Upload (store : GoString → Res GoString) (now : Time) (pfx dbName : GoString)
    (compressed : Bool) : GoString × Res GoString :=
  let key := uploadKey now pfx dbName compressed
  match store key with
  | .fail e => (key, .fail (.wrapped (lit "ошибка загрузки в S3") e))
  | .ok location => (key, .ok location)

/-- The key the specification describes: the upload instant expressed in UTC. -/
def specKeyUTC (now : Time) (pfx dbName : GoString) (compressed : Bool) : GoString :=
  pfx ++ lit "/" ++ dbName ++ lit "_" ++ now.UTC.Format ++ lit ".dump"
    ++ (if compressed then lit ".gz" else [])

/-! ## Auxiliary notions used in the statements -/

/-- The archive writer can start an entry: no sticky error, the previous entry is
complete, and the pipe is open. -/
def TarWriter.ready (tw : TarWriter) : Prop :=
  tw.err = none ∧ tw.nb = 0 ∧ tw.w.werr = none

instance (tw : TarWriter) : Decidable tw.ready := by
  unfold TarWriter.ready; infer_instance

/-- The archive writer after a complete entry `hdr` with body `body` was written to a
ready writer `tw`. -/
def afterEntry (tw : TarWriter) (hdr : Header) (body : GoString) : TarWriter :=
  { w := { delivered := tw.w.delivered ++ zeros tw.pad ++ Token.header hdr :: body.map Token.byte,
           werr := none },
    nb := 0, pad := blockPadding hdr.Size, err := none }

/-- What the reader does once a field `f` is complete and the delimiter `d` was read. -/
def afterField (d : Byte) (f : GoString) (r : List GoString) (rs : List (List GoString))
    (cs : GoString) : Option (List (List GoString)) :=
  if d = 44 then parseGo .fieldStart [] (r ++ [f]) rs cs
  else parseGo .fieldStart [] [] (rs ++ [r ++ [f]]) cs

/-- The column has a default expression: `column_default` is not NULL and not empty. -/
def hasDefault (c : ColumnRow) : Prop := c.dflt.Valid = true ∧ c.dflt.String ≠ []

instance (c : ColumnRow) : Decidable (hasDefault c) := by
  unfold hasDefault; infer_instance

/-- The column is not nullable: `is_nullable` is the text `NO`. -/
def notNullable (c : ColumnRow) : Prop := c.isNull.Valid = true ∧ c.isNull.String = lit "NO"

instance (c : ColumnRow) : Decidable (notNullable c) := by
  unfold notNullable; infer_instance

/-- The column text the specification documents:
`"<name>" <type>[ DEFAULT <expr>][ NOT NULL]`. -/
def specColumn (c : ColumnRow) : GoString :=
  lit "\"" ++ c.name.String ++ lit "\" " ++ c.dtype.String
    ++ (if hasDefault c then lit " DEFAULT " ++ c.dflt.String else [])
    ++ (if notNullable c then lit " NOT NULL" else [])

/-! ## Concrete databases -/

/-- The catalog rows of `public.users`: `id` (not null, no default) and `name`
(nullable). -/
def usersColumns : List ColumnRow :=
  [ { name := ⟨lit "id", true⟩, dtype := ⟨lit "integer", true⟩, isNull := ⟨lit "NO", true⟩,
      dflt := ⟨[], false⟩ },
    { name := ⟨lit "name", true⟩, dtype := ⟨lit "text", true⟩, isNull := ⟨lit "YES", true⟩,
      dflt := ⟨[], false⟩ } ]

/-- The rows of `public.users`: `(1, "Alice")` and `(2, NULL)`. -/
def usersRows : List (List Value) :=
  [[.int 1, .str (lit "Alice")], [.int 2, .null]]

/-- A database with the single table `public.users`; `colErr` is the error that ends the
iteration over the catalog rows after the first `colsRead` of them, `rowErr` the one that
ends the iteration over the table rows after the first `rowsRead` of them. -/
def usersDBWith (colsRead : Nat) (colErr : Option Err) (rowsRead : Nat)
    (rowErr : Option Err) : DB :=
  { openErr := none
    tables := .ok { scans := [.ok (lit "public", lit "users")], err := none }
    columns := fun s t =>
      if s = lit "public" ∧ t = lit "users" then
        .ok { scans := (usersColumns.take colsRead).map Res.ok, err := colErr }
      else .fail (.driver "no such table")
    select := fun q =>
      if q = lit "SELECT * FROM \"public\".\"users\"" then
        .ok { columns := .ok [lit "id", lit "name"],
              rows := { scans := (usersRows.take rowsRead).map Res.ok, err := rowErr } }
      else .fail (.driver "no such table")
    closeErr := none }

/-- The database of the concrete scenario: every query succeeds. -/
def usersDB : DB := usersDBWith 2 none 2 none

/-! # Theorems -/

/-! ## Reading back what the csv writer wrote -/

theorem parseGo_fieldStart_irrel (f : GoString) (r : List GoString)
    (rs : List (List GoString)) (cs : GoString) :
    parseGo .fieldStart f r rs cs = parseGo .fieldStart [] r rs cs := by
  cases cs <;> simp [parseGo]

theorem parseGo_quoted_body (g : GoString) : ∀ (f : GoString) (r : List GoString)
    (rs : List (List GoString)) (rest : GoString),
    parseGo .quoted f r rs (writeQuoted g ++ 34 :: rest) = parseGo .quoteSeen (f ++ g) r rs rest := by
  induction g with
  | nil => intro f r rs rest; simp [writeQuoted, parseGo]
  | cons c cs ih =>
    intro f r rs rest
    by_cases hc : c = 34
    · subst hc
      simp [writeQuoted, parseGo, ih]
    · simp [writeQuoted, parseGo, hc, ih]

theorem parseGo_unquoted_body (g : GoString) : ∀ (f : GoString) (r : List GoString)
    (rs : List (List GoString)) (rest : GoString), g.any isSpecial = false →
    parseGo .unquoted f r rs (g ++ rest) = parseGo .unquoted (f ++ g) r rs rest := by
  induction g with
  | nil => intro f r rs rest _; simp
  | cons c cs ih =>
    intro f r rs rest h
    simp only [List.any_cons, Bool.or_eq_false_iff] at h
    obtain ⟨hc, hcs⟩ := h
    simp only [isSpecial, Bool.or_eq_false_iff, beq_eq_false_iff_ne, ne_eq] at hc
    obtain ⟨⟨⟨h10, _⟩, h34⟩, h44⟩ := hc
    simp [parseGo, h10, h34, h44, ih _ _ _ _ hcs]

theorem isSpecial_of_needsQuotes_false {g : GoString} (h : fieldNeedsQuotes g = false) :
    g.any isSpecial = false := by
  unfold fieldNeedsQuotes at h
  by_cases h1 : g = []
  · simp [h1]
  · rw [if_neg h1] at h
    by_cases h2 : g = lit "\\."
    · rw [if_pos h2] at h
      exact absurd h (by simp)
    · rw [if_neg h2] at h
      by_cases h3 : g.any isSpecial = true
      · rw [if_pos h3] at h
        exact absurd h (by simp)
      · simpa using h3

theorem parseGo_field (g : GoString) (d : Byte) (hd : d = 44 ∨ d = 10) (f0 : GoString)
    (r : List GoString) (rs : List (List GoString)) (cs : GoString) :
    parseGo .fieldStart f0 r rs (writeField g ++ d :: cs) = afterField d g r rs cs := by
  unfold writeField
  by_cases hq : fieldNeedsQuotes g = true
  · simp only [hq, if_true, List.cons_append, List.append_assoc, List.singleton_append]
    rw [parseGo]
    simp only [if_true]
    rw [parseGo_quoted_body]
    rcases hd with rfl | rfl <;> simp [parseGo, afterField]
  · have hq2 : fieldNeedsQuotes g = false := by simpa using hq
    have hs := isSpecial_of_needsQuotes_false hq2
    simp only [hq2, Bool.false_eq_true, if_false]
    cases g with
    | nil => rcases hd with rfl | rfl <;> simp [parseGo, afterField]
    | cons c g2 =>
      simp only [List.any_cons, Bool.or_eq_false_iff] at hs
      obtain ⟨hc, hcs⟩ := hs
      simp only [isSpecial, Bool.or_eq_false_iff, beq_eq_false_iff_ne, ne_eq] at hc
      obtain ⟨⟨⟨h10, _⟩, h34⟩, h44⟩ := hc
      simp only [List.cons_append]
      rw [parseGo]
      simp only [h34, h44, h10, if_false]
      rw [parseGo_unquoted_body g2 _ _ _ _ hcs]
      rcases hd with rfl | rfl <;> simp [parseGo, afterField]

theorem parseGo_record (gs : List GoString) : ∀ (g : GoString) (f0 : GoString)
    (r : List GoString) (rs : List (List GoString)) (rest : GoString),
    parseGo .fieldStart f0 r rs (csvWrite (g :: gs) ++ rest)
      = parseGo .fieldStart [] [] (rs ++ [r ++ g :: gs]) rest := by
  induction gs with
  | nil =>
    intro g f0 r rs rest
    simp only [csvWrite, writeFields, List.append_assoc, List.singleton_append]
    rw [parseGo_field g 10 (Or.inr rfl)]
    simp [afterField]
  | cons h t ih =>
    intro g f0 r rs rest
    have := ih h [] (r ++ [g]) rs rest
    simp only [csvWrite, writeFields, List.append_assoc, List.singleton_append,
      List.cons_append] at this ⊢
    rw [parseGo_field g 44 (Or.inl rfl)]
    simp only [afterField, if_true]
    rw [this]
    simp

theorem parseGo_records (recs : List (List GoString)) : ∀ (rs : List (List GoString)),
    (∀ r ∈ recs, r ≠ []) →
    parseGo .fieldStart [] [] rs (recs.flatMap csvWrite) = some (rs ++ recs) := by
  induction recs with
  | nil => intro rs _; simp [parseGo]
  | cons r t ih =>
    intro rs h
    have hr : r ≠ [] := h r (List.mem_cons_self _ _)
    have ht : ∀ x ∈ t, x ≠ [] := fun x hx => h x (List.mem_cons_of_mem _ hx)
    cases r with
    | nil => exact absurd rfl hr
    | cons g gs =>
      simp only [List.flatMap_cons]
      rw [parseGo_record, ih _ ht]
      simp

/-! ## The archive writer -/

theorem Pipe.Write_open (p : Pipe) (h : p.werr = none) (b : List Token) :
    p.Write b = ({ delivered := p.delivered ++ b, werr := none }, none) := by
  cases p with
  | mk d w => simp only at h; subst h; rfl

theorem Pipe.Write_closed (p : Pipe) (e : Err) (h : p.werr = some e) (b : List Token) :
    p.Write b = (p, some .ErrClosedPipe) := by
  cases p with
  | mk d w => simp only at h; subst h; rfl

theorem WriteHeader_ready (tw : TarWriter) (h : tw.ready) (hdr : Header) :
    tw.WriteHeader hdr =
      ({ w := { delivered := tw.w.delivered ++ zeros tw.pad ++ [Token.header hdr], werr := none },
         nb := hdr.Size, pad := blockPadding hdr.Size, err := none }, none) := by
  obtain ⟨herr, hnb, hopen⟩ := h
  cases tw with
  | mk w nb pad err =>
    simp only at herr hnb hopen
    subst herr hnb
    simp [TarWriter.WriteHeader, TarWriter.Flush, Pipe.Write_open, hopen]

theorem WriteHeader_not_ready (tw : TarWriter) (h : ¬ tw.ready) (hdr : Header) :
    ∃ e, (tw.WriteHeader hdr).2 = some e ∧ (tw.WriteHeader hdr).1.w = tw.w := by
  cases tw with
  | mk w nb pad err =>
    cases err with
    | some e => exact ⟨e, by simp [TarWriter.WriteHeader, TarWriter.Flush]⟩
    | none =>
      by_cases hnb : 0 < nb
      · exact ⟨.missedWriting nb, by simp [TarWriter.WriteHeader, TarWriter.Flush, hnb]⟩
      · cases hw : w.werr with
        | none => exact absurd ⟨rfl, by simpa using hnb, hw⟩ h
        | some e =>
          exact ⟨.ErrClosedPipe, by
            simp [TarWriter.WriteHeader, TarWriter.Flush, hnb, Pipe.Write_closed w e hw]⟩

theorem Write_exact (tw : TarWriter) (herr : tw.err = none) (hopen : tw.w.werr = none)
    (data : GoString) (hnb : tw.nb = data.length) :
    tw.Write data =
      ({ w := { delivered := tw.w.delivered ++ data.map Token.byte, werr := none },
         nb := 0, pad := tw.pad, err := none }, none) := by
  cases tw with
  | mk w nb pad err =>
    simp only at herr hopen hnb
    subst herr hnb
    cases w with
    | mk d we =>
      simp only at hopen
      subst hopen
      cases data with
      | nil => simp [TarWriter.Write]
      | cons c cs => simp [TarWriter.Write, Pipe.Write]

theorem writeTarFile_ready (tw : TarWriter) (h : tw.ready) (name data : GoString) :
    writeTarFile tw name data
      = (afterEntry tw ⟨name, 0o600, data.length⟩ data, none) := by
  unfold writeTarFile
  simp only [WriteHeader_ready tw h]
  rw [Write_exact _ rfl rfl data rfl]
  simp [afterEntry]

theorem writeTarFile_not_ready (tw : TarWriter) (h : ¬ tw.ready) (name data : GoString) :
    ∃ e, (writeTarFile tw name data).2 = some e ∧ (writeTarFile tw name data).1.w = tw.w := by
  obtain ⟨e, h2, hw⟩ := WriteHeader_not_ready tw h
    { Name := name, Mode := 0o600, Size := data.length }
  generalize hx : tw.WriteHeader _ = x at h2 hw
  obtain ⟨t, o⟩ := x
  simp only at h2 hw
  subst h2
  exact ⟨e, by simp only [writeTarFile, hx], by simp only [writeTarFile, hx, hw]⟩

theorem afterEntry_ready (tw : TarWriter) (hdr : Header) (body : GoString) :
    (afterEntry tw hdr body).ready := ⟨rfl, rfl, rfl⟩

/-! ## The row loop -/

theorem tableDocument_eq (cols : List GoString) (rows : List (List Value)) :
    tableDocument cols rows = (cols :: rows.map encodeRecord).flatMap csvWrite := by
  simp [tableDocument, List.flatMap_cons, List.flatMap_map]

theorem encodeRows_ok (n : Nat) (rows : List (List Value)) : ∀ (buf : GoString),
    (∀ r ∈ rows, r.length = n) →
    encodeRows n (rows.map Res.ok) buf
      = .ok (buf ++ rows.flatMap (fun vals => csvWrite (encodeRecord vals))) := by
  induction rows with
  | nil => intro buf _; simp [encodeRows]
  | cons r t ih =>
    intro buf h
    have hr : r.length = n := h r (List.mem_cons_self _ _)
    have ht : ∀ x ∈ t, x.length = n := fun x hx => h x (List.mem_cons_of_mem _ hx)
    simp [encodeRows, scanRow, hr, ih _ ht, List.flatMap_cons]

theorem encodeRows_inv (n : Nat) (scans : List (Res (List Value))) : ∀ (buf b : GoString),
    encodeRows n scans buf = .ok b →
    ∃ rows : List (List Value), scans = rows.map Res.ok ∧ (∀ r ∈ rows, r.length = n) ∧
      b = buf ++ rows.flatMap (fun vals => csvWrite (encodeRecord vals)) := by
  induction scans with
  | nil =>
    intro buf b h
    simp only [encodeRows, Res.ok.injEq] at h
    exact ⟨[], rfl, by simp, by simp [h]⟩
  | cons s t ih =>
    intro buf b h
    cases s with
    | fail e => simp [encodeRows, scanRow] at h
    | ok vals =>
      by_cases hl : vals.length = n
      · simp only [encodeRows, scanRow, hl, if_true] at h
        obtain ⟨rows, h1, h2, h3⟩ := ih _ _ h
        refine ⟨vals :: rows, by simp [h1], ?_, by simp [h3, List.flatMap_cons]⟩
        intro r hr
        rcases List.mem_cons.mp hr with rfl | hr
        · exact hl
        · exact h2 r hr
      · simp [encodeRows, scanRow, hl] at h

/-- Every run of `writeTableCSV` either returns an error and leaves the pipe as it was, or
finds the writer ready, reads all rows, and writes one complete entry holding the data
document; it then returns `rows.Err()`. -/
theorem writeTableCSV_cases (db : DB) (tw : TarWriter) (schema table filename : GoString) :
    (∃ e, (writeTableCSV db tw schema table filename).2 = some e ∧
        (writeTableCSV db tw schema table filename).1.w = tw.w) ∨
    (tw.ready ∧ ∃ res cols rows, db.select (selectQuery schema table) = .ok res ∧
        res.columns = .ok cols ∧ res.rows.scans = rows.map Res.ok ∧
        (∀ r ∈ rows, r.length = cols.length) ∧
        writeTableCSV db tw schema table filename
          = (afterEntry tw ⟨filename, 0o600, (tableDocument cols rows).length⟩
                (tableDocument cols rows), res.rows.err)) := by
  cases hsel : db.select (selectQuery schema table) with
  | fail e =>
    exact Or.inl ⟨e, by simp only [writeTableCSV, hsel], by simp only [writeTableCSV, hsel]⟩
  | ok res =>
    cases hcols : res.columns with
    | fail e =>
      exact Or.inl ⟨e, by simp only [writeTableCSV, hsel, hcols],
        by simp only [writeTableCSV, hsel, hcols]⟩
    | ok cols =>
      cases henc : encodeRows cols.length res.rows.scans (csvWrite cols) with
      | fail e =>
        exact Or.inl ⟨e, by simp only [writeTableCSV, hsel, hcols, henc],
          by simp only [writeTableCSV, hsel, hcols, henc]⟩
      | ok buf =>
        obtain ⟨rows, h1, h2, h3⟩ := encodeRows_inv _ _ _ _ henc
        have hbuf : buf = tableDocument cols rows := h3
        by_cases hr : tw.ready
        · refine Or.inr ⟨hr, res, cols, rows, rfl, hcols, h1, h2, ?_⟩
          simp only [writeTableCSV, hsel, hcols, henc, WriteHeader_ready tw hr]
          rw [Write_exact _ rfl rfl buf rfl]
          simp [afterEntry, hbuf]
        · obtain ⟨e, he, hw⟩ := WriteHeader_not_ready tw hr ⟨filename, 0o600, buf.length⟩
          left
          generalize hx : tw.WriteHeader _ = x at he hw
          obtain ⟨t, o⟩ := x
          simp only at he hw
          subst he
          exact ⟨e, by simp only [writeTableCSV, hsel, hcols, henc, hx],
            by simp only [writeTableCSV, hsel, hcols, henc, hx, hw]⟩

/-! ## Claims about entries and data documents -/

/-- C1: every entry written by `writeTarFile` and by `writeTableCSV` declares in its header
the exact number of bytes of the body that follows it. On a ready archive writer
`writeTarFile` succeeds and emits the padding owed, the header with `Size = len(data)`
and then exactly the bytes of `data` (also when `data` is empty); on a writer that is
not ready nothing is emitted. Every run of `writeTableCSV` emits either nothing or one
header followed by a body of exactly `Size` bytes, and on a ready writer with decodable
rows that body is the data document of the table. -/
theorem entry_size_equals_body_length (tw : TarWriter) :
    (∀ name data : GoString,
      (tw.ready →
        (writeTarFile tw name data).2 = none ∧
        (writeTarFile tw name data).1.w.delivered
          = tw.w.delivered ++ zeros tw.pad
              ++ Token.header ⟨name, 0o600, data.length⟩ :: data.map Token.byte) ∧
      (¬ tw.ready → (writeTarFile tw name data).1.w.delivered = tw.w.delivered)) ∧
    (∀ (db : DB) (schema table filename : GoString),
      (writeTableCSV db tw schema table filename).1.w.delivered = tw.w.delivered ∨
      ∃ body : GoString,
        (writeTableCSV db tw schema table filename).1.w.delivered
          = tw.w.delivered ++ zeros tw.pad
              ++ Token.header ⟨filename, 0o600, body.length⟩ :: body.map Token.byte) ∧
    (∀ (db : DB) (schema table filename : GoString) (res : TableResult)
        (cols : List GoString) (rows : List (List Value)),
      tw.ready → db.select (selectQuery schema table) = .ok res → res.columns = .ok cols →
      res.rows.scans = rows.map Res.ok → (∀ r ∈ rows, r.length = cols.length) →
      (writeTableCSV db tw schema table filename).1.w.delivered
        = tw.w.delivered ++ zeros tw.pad
            ++ Token.header ⟨filename, 0o600, (tableDocument cols rows).length⟩
              :: (tableDocument cols rows).map Token.byte) := by
  refine ⟨fun name data => ⟨fun h => ?_, fun h => ?_⟩, fun db schema table filename => ?_,
    fun db schema table filename res cols rows h hsel hcols hscans hlen => ?_⟩
  · rw [writeTarFile_ready tw h]
    exact ⟨rfl, rfl⟩
  · obtain ⟨e, _, hw⟩ := writeTarFile_not_ready tw h name data
    rw [hw]
  · rcases writeTableCSV_cases db tw schema table filename with ⟨e, _, hw⟩ | ⟨_, res, cols, rows, _, _, _, _, heq⟩
    · left; rw [hw]
    · right
      exact ⟨tableDocument cols rows, by rw [heq]; rfl⟩
  · have henc := encodeRows_ok cols.length rows (csvWrite cols) hlen
    simp only [writeTableCSV, hsel, hcols, hscans, henc, WriteHeader_ready tw h]
    rw [Write_exact _ rfl rfl _ rfl]
    simp [tableDocument]

/-- The witness of C1: the empty schema document and the table of the concrete scenario
written to a fresh archive writer. -/
theorem entry_size_equals_body_length_witness :
    (NewWriter Pipe.new).ready ∧
    (writeTarFile (NewWriter Pipe.new) (lit "schema.sql") []).1.w.delivered
        = [Token.header ⟨lit "schema.sql", 0o600, 0⟩] ∧
    (writeTableCSV usersDB (NewWriter Pipe.new) (lit "public") (lit "users")
        (lit "data/public.users.csv")).1.w.delivered
      = Token.header ⟨lit "data/public.users.csv", 0o600, 19⟩
          :: (lit "id,name\n1,Alice\n2,\n").map Token.byte := by
  have h := entry_size_equals_body_length (NewWriter Pipe.new)
  refine ⟨by decide, ?_, ?_⟩
  · have h1 := ((h.1 (lit "schema.sql") []).1 (by decide)).2
    rw [h1]; decide
  · have h2 := h.2.2 usersDB (lit "public") (lit "users") (lit "data/public.users.csv")
      { columns := .ok [lit "id", lit "name"],
        rows := { scans := usersRows.map Res.ok, err := none } }
      [lit "id", lit "name"] usersRows (by decide) (by decide) rfl rfl (by decide)
    rw [h2]; decide


theorem encodeRecord_bytes (r : List GoString) :
    encodeRecord (r.map Value.bytes) = r := by
  induction r with
  | nil => rfl
  | cons a t ih =>
    simp only [encodeRecord, List.map_cons, List.map_map] at ih ⊢
    rw [ih]; rfl

theorem parseCSV_tableDocument (cols : List GoString) (hC : cols ≠ [])
    (rows : List (List Value)) (hlen : ∀ r ∈ rows, r.length = cols.length) :
    parseCSV (tableDocument cols rows) = some (cols :: rows.map encodeRecord) := by
  rw [tableDocument_eq, parseCSV, parseGo_records]
  · simp
  · intro r hr
    rcases List.mem_cons.mp hr with rfl | hr
    · exact hC
    · obtain ⟨vals, hv, rfl⟩ := List.mem_map.mp hr
      intro h0
      have h1 : vals.length = 0 := by
        have := congrArg List.length h0
        simpa [encodeRecord] using this
      have h2 := hlen vals hv
      rw [h1] at h2
      exact hC (List.length_eq_zero.mp h2.symm)

/-- C2 (as amended): for every non-empty list of column names and every list of rows with
as many fields as there are columns, reading the data document back with the documented
rules (comma delimiter, quoted fields, doubled quotes, newline ends a record) yields the
header record followed by the records of the rows, every field unchanged; this holds for
arbitrary field contents (commas, quotes, newlines, carriage returns, empty fields) and
for a single column. -/
theorem data_document_round_trip (cols : List GoString) (hC : cols ≠ []) :
    (∀ rows : List (List Value), (∀ r ∈ rows, r.length = cols.length) →
      parseCSV (tableDocument cols rows) = some (cols :: rows.map encodeRecord)) ∧
    (∀ recs : List (List GoString), (∀ r ∈ recs, r.length = cols.length) →
      parseCSV (tableDocument cols (recs.map (List.map Value.bytes))) = some (cols :: recs)) := by
  refine ⟨fun rows hlen => parseCSV_tableDocument cols hC rows hlen, fun recs hlen => ?_⟩
  rw [parseCSV_tableDocument cols hC]
  · simp only [List.map_map]
    congr 2
    have : (encodeRecord ∘ List.map Value.bytes) = id := by
      funext r; exact encodeRecord_bytes r
    rw [this]; simp
  · intro r hr
    obtain ⟨x, hx, rfl⟩ := List.mem_map.mp hr
    simpa using hlen x hx

/-- The witness of C2: a two-column table whose fields hold a comma, a double quote, a
carriage return with a newline, and nothing; and a single column holding an empty
field. -/
theorem data_document_round_trip_witness :
    parseCSV (tableDocument [lit "a", lit "b"]
        [[.bytes (lit "x,y"), .bytes (lit "q\"r")], [.bytes (lit "l\r\nm"), .bytes []]])
      = some [[lit "a", lit "b"], [lit "x,y", lit "q\"r"], [lit "l\r\nm", []]] ∧
    parseCSV (tableDocument [lit "a"] [[.null]]) = some [[lit "a"], [[]]] :=
  ⟨(data_document_round_trip [lit "a", lit "b"] (by decide)).2
      [[lit "x,y", lit "q\"r"], [lit "l\r\nm", []]] (by decide),
   (data_document_round_trip [lit "a"] (by decide)).1 [[.null]] (by decide)⟩

/-- C2 (as stated) fails for a table without columns: its data document is the single
empty line that the header record of no fields is written as, and reading it back gives
one record holding one empty field, not the record of no fields. -/
theorem data_document_round_trip_no_columns :
    tableDocument [] [] = lit "\n" ∧
    parseCSV (tableDocument [] []) = some [[[]]] ∧
    parseCSV (tableDocument [] []) ≠ some ([] :: List.map encodeRecord []) := by
  decide

/-- C3: when `writeTableCSV` succeeds for a table with at least one column, the cursor
yielded `N` decodable rows, one entry was written, and its body read back as a data
document consists of exactly `N + 1` records: the column names first, then the record of
each row in cursor order, each with as many fields as there are columns. -/
theorem table_document_record_count (db : DB) (tw : TarWriter)
    (schema table filename : GoString) (res : TableResult) (cols : List GoString)
    (hsel : db.select (selectQuery schema table) = .ok res) (hcols : res.columns = .ok cols)
    (hC : cols ≠ []) (hok : (writeTableCSV db tw schema table filename).2 = none) :
    ∃ (rows : List (List Value)) (doc : GoString) (recs : List (List GoString)),
      res.rows.scans = rows.map Res.ok ∧
      (writeTableCSV db tw schema table filename).1.w.delivered
        = tw.w.delivered ++ zeros tw.pad
            ++ Token.header ⟨filename, 0o600, doc.length⟩ :: doc.map Token.byte ∧
      parseCSV doc = some recs ∧
      recs.length = res.rows.scans.length + 1 ∧
      recs = cols :: rows.map encodeRecord ∧
      ∀ r ∈ recs, r.length = cols.length := by
  rcases writeTableCSV_cases db tw schema table filename with
    ⟨e, he, _⟩ | ⟨_, res1, cols1, rows, hsel1, hcols1, hscans, hlen, heq⟩
  · rw [hok] at he; exact absurd he (by simp)
  · rw [hsel] at hsel1
    have hres : res = res1 := by injection hsel1
    subst hres
    rw [hcols] at hcols1
    have hc : cols = cols1 := by injection hcols1
    subst hc
    refine ⟨rows, tableDocument cols rows, cols :: rows.map encodeRecord, hscans, ?_,
      parseCSV_tableDocument cols hC rows hlen, by simp [hscans], rfl, ?_⟩
    · rw [heq]; rfl
    · intro r hr
      rcases List.mem_cons.mp hr with rfl | hr
      · rfl
      · obtain ⟨vals, hv, rfl⟩ := List.mem_map.mp hr
        simpa [encodeRecord] using hlen vals hv

/-- The witness of C3: `public.users` of the concrete scenario, two rows and two
columns. -/
theorem table_document_record_count_witness :
    ∃ (rows : List (List Value)) (doc : GoString) (recs : List (List GoString)),
      (List.map Res.ok usersRows) = rows.map Res.ok ∧
      (writeTableCSV usersDB (NewWriter Pipe.new) (lit "public") (lit "users")
          (lit "data/public.users.csv")).1.w.delivered
        = (NewWriter Pipe.new).w.delivered ++ zeros (NewWriter Pipe.new).pad
            ++ Token.header ⟨lit "data/public.users.csv", 0o600, doc.length⟩
              :: doc.map Token.byte ∧
      parseCSV doc = some recs ∧
      recs.length = (List.map Res.ok usersRows).length + 1 ∧
      recs = [lit "id", lit "name"] :: rows.map encodeRecord ∧
      ∀ r ∈ recs, r.length = [lit "id", lit "name"].length :=
  table_document_record_count usersDB (NewWriter Pipe.new) (lit "public") (lit "users")
    (lit "data/public.users.csv")
    { columns := .ok [lit "id", lit "name"],
      rows := { scans := usersRows.map Res.ok, err := none } }
    [lit "id", lit "name"] (by decide) rfl (by decide) (by decide)

/-- C4: the record of a row is a function of the row alone: it has one field per value,
field `i` is the field of value `i`, which is the empty string for NULL, the bytes
themselves for a byte sequence and the text of `fmt.Sprint` for any other value; a row
that `Scan` accepts for `ncols` destinations yields `ncols` fields. The rows
`(1, "Alice")` and `(2, NULL)` with the columns `id`, `name` give the document
`id,name\n1,Alice\n2,\n`, which is the body `writeTableCSV` writes. -/
theorem record_encoding :
    (∀ vals : List Value,
      (encodeRecord vals).length = vals.length ∧
      ∀ i : Nat, (encodeRecord vals)[i]? = vals[i]?.map encodeValue) ∧
    encodeValue .null = [] ∧
    (∀ b : GoString, encodeValue (.bytes b) = b) ∧
    (∀ v : Value, v ≠ .null → (∀ b, v ≠ .bytes b) → encodeValue v = Sprint v) ∧
    (∀ (ncols : Nat) (r : Res (List Value)) (vals : List Value),
      scanRow ncols r = .ok vals → (encodeRecord vals).length = ncols) ∧
    tableDocument [lit "id", lit "name"] [[.int 1, .str (lit "Alice")], [.int 2, .null]]
      = lit "id,name\n1,Alice\n2,\n" ∧
    (writeTableCSV usersDB (NewWriter Pipe.new) (lit "public") (lit "users")
        (lit "data/public.users.csv")).1.w.delivered
      = Token.header ⟨lit "data/public.users.csv", 0o600, 19⟩
          :: (lit "id,name\n1,Alice\n2,\n").map Token.byte := by
  refine ⟨fun vals => ⟨by simp [encodeRecord], fun i => by simp [encodeRecord]⟩, rfl,
    fun b => rfl, ?_, ?_, by decide, by decide⟩
  · intro v h1 h2
    cases v with
    | null => exact absurd rfl h1
    | bytes b => exact absurd rfl (h2 b)
    | int i => rfl
    | bool b => rfl
    | str s => rfl
    | other t => rfl
  · intro ncols r vals h
    cases r with
    | fail e => simp [scanRow] at h
    | ok vs =>
      by_cases hl : vs.length = ncols
      · simp only [scanRow, hl, if_true, Res.ok.injEq] at h
        subst h
        simpa [encodeRecord] using hl
      · simp [scanRow, hl] at h

/-- The witness of C4: an integer is neither NULL nor a byte sequence, so its field is
its default text; a row scanned for two columns has two fields. -/
theorem record_encoding_witness :
    encodeValue (.int (-7)) = Sprint (.int (-7)) ∧
    (encodeRecord [.int 2, .null]).length = 2 :=
  ⟨record_encoding.2.2.2.1 (.int (-7)) (by decide) (fun b h => by cases h),
   record_encoding.2.2.2.2.1 2 (.ok [.int 2, .null]) [.int 2, .null] (by decide)⟩

/-! ## The run of `Dump` -/

theorem headerNames_append (a b : List Token) :
    headerNames (a ++ b) = headerNames a ++ headerNames b := by
  induction a with
  | nil => rfl
  | cons t ts ih => cases t <;> simp [headerNames, ih]

theorem headerNames_zeros (n : Nat) : headerNames (zeros n) = [] := by
  induction n with
  | zero => rfl
  | succ k ih => simpa [zeros, List.replicate_succ, headerNames] using ih

theorem headerNames_bytes (b : GoString) : headerNames (b.map Token.byte) = [] := by
  induction b with
  | nil => rfl
  | cons c cs ih => simpa [headerNames] using ih

theorem headerNames_afterEntry (tw : TarWriter) (hdr : Header) (body : GoString) :
    headerNames (afterEntry tw hdr body).w.delivered
      = headerNames tw.w.delivered ++ [hdr.Name] := by
  simp [afterEntry, headerNames_append, headerNames_zeros, headerNames_bytes, headerNames]

theorem writeTrailer_some (n : Nat) (w : Pipe) (e : Err) :
    writeTrailer n w (some e) = (w, some e) := by
  cases n <;> rfl

/-- The call `tw.Close()` either leaves the pipe as it was, or the pipe is open and receives only
zero bytes (padding and the trailer). -/
theorem Close_cases (tw : TarWriter) :
    (tw.Close).1.w = tw.w ∨
    (tw.w.werr = none ∧ ∃ n, (tw.Close).1.w = { delivered := tw.w.delivered ++ zeros n,
                                                 werr := none }) := by
  cases tw with
  | mk w nb pad err =>
    cases err with
    | some e =>
      left
      by_cases he : e = .ErrWriteAfterClose
      · simp [TarWriter.Close, he]
      · simp [TarWriter.Close, he]
    | none =>
      by_cases hnb : 0 < nb
      · left
        simp [TarWriter.Close, TarWriter.Flush, hnb, writeTrailer_some]
      · cases w with
        | mk d we =>
          cases we with
          | some e =>
            left
            simp [TarWriter.Close, TarWriter.Flush, hnb, Pipe.Write, writeTrailer_some]
          | none =>
            right
            have hz : zeros (pad + 512 + 512) = zeros pad ++ zeros 512 ++ zeros 512 := by
              simp only [zeros, List.replicate_add]
            refine ⟨rfl, pad + 512 + 512, ?_⟩
            rw [hz]
            simp [TarWriter.Close, TarWriter.Flush, hnb, writeTrailer, Pipe.Write]

theorem closePipe_delivered (tw : TarWriter) (e : Err) :
    (tw.closePipe e).w.delivered = tw.w.delivered := by
  cases tw with
  | mk w nb pad err =>
    cases w with
    | mk d we => cases we <;> rfl

theorem closePipe_open (tw : TarWriter) (e : Err) (h : tw.w.werr = none) :
    (tw.closePipe e).w = { delivered := tw.w.delivered, werr := some e } := by
  cases tw with
  | mk w nb pad err =>
    cases w with
    | mk d we => simp only at h; subst h; rfl

theorem closePipe_closed (tw : TarWriter) (e x : Err) (h : tw.w.werr = some x) :
    (tw.closePipe e).w = tw.w := by
  cases tw with
  | mk w nb pad err =>
    cases w with
    | mk d we => simp only at h; subst h; rfl

theorem deferDbClose_closed (db : DB) (tw : TarWriter) (x : Err) (h : tw.w.werr = some x) :
    (deferDbClose db tw).w = tw.w := by
  unfold deferDbClose
  cases db.closeErr with
  | none => rfl
  | some e => exact closePipe_closed tw e x h

theorem deferDbClose_delivered (db : DB) (tw : TarWriter) :
    (deferDbClose db tw).w.delivered = tw.w.delivered := by
  unfold deferDbClose
  cases db.closeErr with
  | none => rfl
  | some e => exact closePipe_delivered tw e

theorem deferTwClose_delivered (tw : TarWriter) :
    ∃ n, (deferTwClose tw).w.delivered = tw.w.delivered ++ zeros n := by
  have hc := Close_cases tw
  unfold deferTwClose
  generalize tw.Close = x at hc
  obtain ⟨t, o⟩ := x
  have key : ∃ n, t.w.delivered = tw.w.delivered ++ zeros n := by
    rcases hc with h | ⟨_, n, h⟩
    · exact ⟨0, by simp only at h; rw [h]; simp [zeros]⟩
    · exact ⟨n, by simp only at h; rw [h]⟩
  cases o with
  | none => exact key
  | some e => simpa only [closePipe_delivered] using key

theorem deferTwClose_closed (tw : TarWriter) (x : Err) (h : tw.w.werr = some x) :
    (deferTwClose tw).w = tw.w := by
  have hc := Close_cases tw
  unfold deferTwClose
  generalize tw.Close = y at hc
  obtain ⟨t, o⟩ := y
  have key : t.w = tw.w := by
    rcases hc with h1 | ⟨h1, _⟩
    · exact h1
    · rw [h] at h1; exact absurd h1 (by simp)
  cases o with
  | none => exact key
  | some e =>
    simp only
    rw [closePipe_closed t e x (by rw [key]; exact h), key]

theorem Pipe.Close_closed (p : Pipe) (x : Err) (h : p.werr = some x) : p.Close = p := by
  cases p with
  | mk d we => simp only at h; subst h; rfl

theorem Pipe.Close_delivered (p : Pipe) : p.Close.delivered = p.delivered := by
  cases p with
  | mk d we => cases we <;> rfl

/-- Once the goroutine has closed the pipe with an error, the deferred calls change
neither the bytes delivered nor that error. -/
theorem defers_closed (tw : TarWriter) (x : Err) (h : tw.w.werr = some x) :
    (deferTwClose tw).w.Close = tw.w := by
  rw [deferTwClose_closed tw x h, Pipe.Close_closed tw.w x h]

theorem writeTableCSV_werr (db : DB) (tw : TarWriter) (schema table filename : GoString) :
    (writeTableCSV db tw schema table filename).1.w.werr = tw.w.werr := by
  rcases writeTableCSV_cases db tw schema table filename with
    ⟨e, _, hw⟩ | ⟨hr, _, _, _, _, _, _, _, heq⟩
  · rw [hw]
  · rw [heq, hr.2.2]; rfl

theorem exportLoop_werr (db : DB) (ts : List tableRef) : ∀ tw : TarWriter,
    (exportLoop db ts tw).1.w.werr = tw.w.werr := by
  induction ts with
  | nil => intro tw; rfl
  | cons t rest ih =>
    intro tw
    have hw := writeTableCSV_werr db tw t.schema t.name (dataName t)
    unfold exportLoop
    generalize writeTableCSV db tw t.schema t.name (dataName t) = x at hw
    obtain ⟨t1, o⟩ := x
    cases o with
    | some e => exact hw
    | none => simp only; rw [ih t1]; exact hw

theorem exportLoop_error (db : DB) (ts : List tableRef) : ∀ (tw tw1 : TarWriter) (e : Err),
    exportLoop db ts tw = (tw1, some e) → ∃ ctx inner, e = .wrapped ctx inner := by
  induction ts with
  | nil => intro tw tw1 e h; simp [exportLoop] at h
  | cons t rest ih =>
    intro tw tw1 e h
    unfold exportLoop at h
    generalize writeTableCSV db tw t.schema t.name (dataName t) = x at h
    obtain ⟨t1, o⟩ := x
    cases o with
    | some e1 =>
      simp only [Prod.mk.injEq, Option.some.injEq] at h
      exact ⟨_, _, h.2.symm⟩
    | none => exact ih t1 tw1 e h

theorem exportLoop_names (db : DB) (ts : List tableRef) : ∀ (tw tw1 : TarWriter),
    exportLoop db ts tw = (tw1, none) →
    headerNames tw1.w.delivered = headerNames tw.w.delivered ++ ts.map dataName := by
  induction ts with
  | nil =>
    intro tw tw1 h
    simp only [exportLoop, Prod.mk.injEq, and_true] at h
    subst h; simp
  | cons t rest ih =>
    intro tw tw1 h
    have hc := writeTableCSV_cases db tw t.schema t.name (dataName t)
    unfold exportLoop at h
    generalize writeTableCSV db tw t.schema t.name (dataName t) = x at h hc
    obtain ⟨t1, o⟩ := x
    cases o with
    | some e1 => simp at h
    | none =>
      rcases hc with ⟨e, he, _⟩ | ⟨_, _, cols, rows, _, _, _, _, heq⟩
      · simp at he
      · simp only [Prod.mk.injEq] at heq
        rw [ih t1 tw1 h, heq.1, headerNames_afterEntry]
        simp

theorem schemaLoop_error (db : DB) (ts : List tableRef) : ∀ (buf : GoString) (e : Err),
    schemaLoop db ts buf = .fail e → ∃ ctx inner, e = .wrapped ctx inner := by
  induction ts with
  | nil => intro buf e h; simp [schemaLoop] at h
  | cons t rest ih =>
    intro buf e h
    unfold schemaLoop at h
    cases hb : buildCreateTable db t.schema t.name with
    | fail e1 =>
      rw [hb] at h
      simp only [Res.fail.injEq] at h
      exact ⟨_, _, h.symm⟩
    | ok create =>
      rw [hb] at h
      exact ih _ e h

/-- The goroutine, from `listTables` on and started on a fresh archive writer, either
closes the pipe with a wrapped error, or leaves it open after writing the entry
`schema.sql` and one entry per table. -/
theorem dumpBody_cases (db : DB) :
    (∃ ctx inner, (dumpBody db (NewWriter Pipe.new)).w.werr = some (.wrapped ctx inner)) ∨
    (∃ tables, listTables db = .ok tables ∧
      (dumpBody db (NewWriter Pipe.new)).w.werr = none ∧
      headerNames (dumpBody db (NewWriter Pipe.new)).w.delivered
        = lit "schema.sql" :: tables.map dataName) := by
  have hready : (NewWriter Pipe.new).ready := ⟨rfl, rfl, rfl⟩
  cases hl : listTables db with
  | fail e =>
    left
    have hd : dumpBody db (NewWriter Pipe.new) = (NewWriter Pipe.new).closePipe
        (.wrapped (lit "ошибка получения списка таблиц") e) := by
      simp only [dumpBody, hl]
    exact ⟨_, e, by rw [hd, closePipe_open _ _ hready.2.2]⟩
  | ok tables =>
    cases hs : schemaLoop db tables [] with
    | fail e =>
      left
      have hd : dumpBody db (NewWriter Pipe.new) = (NewWriter Pipe.new).closePipe e := by
        simp only [dumpBody, hl, hs]
      obtain ⟨ctx, inner, he⟩ := schemaLoop_error db tables [] e hs
      exact ⟨ctx, inner, by rw [hd, closePipe_open _ _ hready.2.2, he]⟩
    | ok doc =>
      have hw := exportLoop_werr db tables
        (afterEntry (NewWriter Pipe.new) ⟨lit "schema.sql", 0o600, doc.length⟩ doc)
      cases hx : exportLoop db tables
          (afterEntry (NewWriter Pipe.new) ⟨lit "schema.sql", 0o600, doc.length⟩ doc) with
      | mk tw2 o =>
        rw [hx] at hw
        have hw2 : tw2.w.werr = none := hw
        cases o with
        | some e =>
          left
          have hd : dumpBody db (NewWriter Pipe.new) = tw2.closePipe e := by
            simp only [dumpBody, hl, hs, writeTarFile_ready _ hready, hx]
          obtain ⟨ctx, inner, he⟩ := exportLoop_error db tables _ _ e hx
          exact ⟨ctx, inner, by rw [hd, closePipe_open _ _ hw2, he]⟩
        | none =>
          right
          have hd : dumpBody db (NewWriter Pipe.new) = tw2 := by
            simp only [dumpBody, hl, hs, writeTarFile_ready _ hready, hx]
          refine ⟨tables, rfl, by rw [hd]; exact hw2, ?_⟩
          rw [hd, exportLoop_names db tables _ _ hx, headerNames_afterEntry]
          rfl

/-! ## Claims about the schema document, the archive and the destination key -/

theorem columnPart_eq (c : ColumnRow) : columnPart c = lit "\t" ++ specColumn c := by
  have ht : lit "\t\"" = lit "\t" ++ lit "\"" := by decide
  unfold columnPart specColumn hasDefault notNullable
  rw [ht]
  by_cases h1 : c.dflt.Valid = true <;> by_cases h2 : c.dflt.String = [] <;>
    by_cases h3 : c.isNull.Valid = true <;> by_cases h4 : c.isNull.String = lit "NO" <;>
    simp [h1, h2, h3, h4]

theorem scanColumns_ok (cs : List ColumnRow) : ∀ acc : List GoString,
    scanColumns (cs.map Res.ok) acc = .ok (acc ++ cs.map columnPart) := by
  induction cs with
  | nil => intro acc; simp [scanColumns]
  | cons c rest ih => intro acc; simp [scanColumns, ih]

theorem schemaLoop_ok (db : DB) (ts : List tableRef) : ∀ (buf doc : GoString),
    schemaLoop db ts buf = .ok doc →
    ∃ stmts : List GoString,
      List.Forall₂ (fun t s => buildCreateTable db t.schema t.name = .ok s) ts stmts ∧
      doc = buf ++ stmts.flatMap (fun s => s ++ lit "\n\n") := by
  induction ts with
  | nil =>
    intro buf doc h
    simp only [schemaLoop, Res.ok.injEq] at h
    exact ⟨[], List.Forall₂.nil, by simp [h]⟩
  | cons t rest ih =>
    intro buf doc h
    unfold schemaLoop at h
    cases hb : buildCreateTable db t.schema t.name with
    | fail e => rw [hb] at h; simp at h
    | ok create =>
      rw [hb] at h
      obtain ⟨stmts, h1, h2⟩ := ih _ _ h
      exact ⟨create :: stmts, List.Forall₂.cons hb h1, by simp [h2, List.flatMap_cons]⟩

theorem flatMap_blank_eq_Join (stmts : List GoString) (h : stmts ≠ []) :
    stmts.flatMap (fun s => s ++ lit "\n\n") = Join stmts (lit "\n\n") ++ lit "\n\n" := by
  induction stmts with
  | nil => exact absurd rfl h
  | cons a rest ih =>
    cases rest with
    | nil => simp [Join, List.flatMap_cons]
    | cons b more =>
      have := ih (by simp)
      simp only [List.flatMap_cons] at this ⊢
      rw [this]
      simp [Join]

theorem writeTableCSV_delivered (db : DB) (tw : TarWriter) (schema table filename : GoString) :
    ∃ rest, (writeTableCSV db tw schema table filename).1.w.delivered
      = tw.w.delivered ++ rest := by
  rcases writeTableCSV_cases db tw schema table filename with
    ⟨e, _, hw⟩ | ⟨_, _, cols, rows, _, _, _, _, heq⟩
  · exact ⟨[], by rw [hw]; simp⟩
  · exact ⟨zeros tw.pad ++ Token.header ⟨filename, 0o600, (tableDocument cols rows).length⟩
      :: (tableDocument cols rows).map Token.byte, by rw [heq]; simp [afterEntry]⟩

theorem exportLoop_delivered (db : DB) (ts : List tableRef) : ∀ tw : TarWriter,
    ∃ rest, (exportLoop db ts tw).1.w.delivered = tw.w.delivered ++ rest := by
  induction ts with
  | nil => intro tw; exact ⟨[], by simp [exportLoop]⟩
  | cons t more ih =>
    intro tw
    obtain ⟨r1, h1⟩ := writeTableCSV_delivered db tw t.schema t.name (dataName t)
    unfold exportLoop
    generalize writeTableCSV db tw t.schema t.name (dataName t) = x at h1
    obtain ⟨t1, o⟩ := x
    cases o with
    | some e => exact ⟨r1, h1⟩
    | none =>
      obtain ⟨r2, h2⟩ := ih t1
      exact ⟨r1 ++ r2, by simp only at h1 ⊢; rw [h2, h1, List.append_assoc]⟩

/-- C5: `buildCreateTable` returns the statement `CREATE TABLE "<schema>"."<table>" (`,
the columns in the order the catalog cursor yields them, one per line and separated by
commas, each rendered as `"<name>" <type>` followed by ` DEFAULT <expr>` exactly when the
column has a (non-empty) default expression and then by ` NOT NULL` exactly when the
column is not nullable, and `);`. The schema document accumulated by `Dump` is the
statements of the tables in discovery order, each followed by a blank line, and it is
the body of the first entry `Dump` writes. -/
theorem schema_document_format (db : DB) :
    (∀ (schema table : GoString) (rows : Rows ColumnRow) (cs : List ColumnRow),
      db.columns schema table = .ok rows → rows.scans = cs.map Res.ok →
      buildCreateTable db schema table
        = .ok (lit "CREATE TABLE \"" ++ schema ++ lit "\".\"" ++ table ++ lit "\" (\n"
            ++ Join (cs.map (fun c => lit "\t" ++ specColumn c)) (lit ",\n") ++ lit "\n);")) ∧
    (∀ (tables : List tableRef) (doc : GoString), schemaLoop db tables [] = .ok doc →
      ∃ stmts : List GoString,
        List.Forall₂ (fun t s => buildCreateTable db t.schema t.name = .ok s) tables stmts ∧
        doc = stmts.flatMap (fun s => s ++ lit "\n\n") ∧
        (stmts ≠ [] → doc = Join stmts (lit "\n\n") ++ lit "\n\n")) ∧
    (∀ (tables : List tableRef) (doc : GoString), db.openErr = none →
      listTables db = .ok tables → schemaLoop db tables [] = .ok doc →
      ∃ rest, (Dump db).delivered
        = Token.header ⟨lit "schema.sql", 0o600, doc.length⟩ :: doc.map Token.byte ++ rest) := by
  refine ⟨fun schema table rows cs hq hs => ?_, fun tables doc h => ?_,
    fun tables doc hopen hl hs => ?_⟩
  · have hmap : cs.map columnPart = cs.map (fun c => lit "\t" ++ specColumn c) :=
      List.map_congr_left (fun c _ => columnPart_eq c)
    simp only [buildCreateTable, hq, hs, scanColumns_ok, createStatement, List.nil_append, hmap]
  · obtain ⟨stmts, h1, h2⟩ := schemaLoop_ok db tables [] doc h
    simp only [List.nil_append] at h2
    exact ⟨stmts, h1, h2, fun hne => by rw [h2, flatMap_blank_eq_Join stmts hne]⟩
  · have hready : (NewWriter Pipe.new).ready := ⟨rfl, rfl, rfl⟩
    obtain ⟨r1, h1⟩ := exportLoop_delivered db tables
      (afterEntry (NewWriter Pipe.new) ⟨lit "schema.sql", 0o600, doc.length⟩ doc)
    have hbody : (dumpBody db (NewWriter Pipe.new)).w.delivered
        = (afterEntry (NewWriter Pipe.new) ⟨lit "schema.sql", 0o600, doc.length⟩ doc).w.delivered
          ++ r1 := by
      simp only [dumpBody, hl, hs, writeTarFile_ready _ hready]
      generalize exportLoop db tables _ = x at h1
      obtain ⟨t2, o⟩ := x
      cases o with
      | some e => simp only [closePipe_delivered]; exact h1
      | none => exact h1
    obtain ⟨n, hn⟩ := deferTwClose_delivered (deferDbClose db (dumpBody db (NewWriter Pipe.new)))
    refine ⟨r1 ++ zeros n, ?_⟩
    simp only [Dump, hopen, Pipe.Close_delivered, hn, deferDbClose_delivered, hbody]
    simp [afterEntry, NewWriter, Pipe.new, zeros]

/-- The witness of C5: the table `public.users` of the concrete scenario. -/
theorem schema_document_format_witness :
    buildCreateTable usersDB (lit "public") (lit "users")
      = .ok (lit "CREATE TABLE \"public\".\"users\" (\n\t\"id\" integer NOT NULL,\n\t\"name\" text\n);") := by
  have h := (schema_document_format usersDB).1 (lit "public") (lit "users")
    { scans := usersColumns.map Res.ok, err := none } usersColumns (by decide) rfl
  rw [h]; rfl

/-- C6: when `Dump` ends successfully (the reader meets `io.EOF`), the entries of the
archive are, in this order, `schema.sql` and then `data/<schema>.<table>.csv` for each
table of the list `listTables` returned, in the order of that list: one entry more than
there are tables, none written twice and no table skipped. -/
theorem dump_entry_order (db : DB) (h : (Dump db).werr = some .EOF) :
    ∃ tables : List tableRef, listTables db = .ok tables ∧
      headerNames (Dump db).delivered
        = lit "schema.sql"
            :: tables.map (fun t => lit "data/" ++ t.schema ++ lit "." ++ t.name ++ lit ".csv") ∧
      (headerNames (Dump db).delivered).length = tables.length + 1 := by
  cases hopen : db.openErr with
  | some e =>
    have hd : Dump db
        = { delivered := [],
            werr := some (.wrapped (lit "ошибка открытия подключения к БД") e) } := by
      simp only [Dump, hopen]
      rw [defers_closed _ (.wrapped (lit "ошибка открытия подключения к БД") e) rfl]
      rfl
    rw [hd] at h
    exact absurd h (by simp)
  | none =>
    have hd : Dump db
        = (deferTwClose (deferDbClose db (dumpBody db (NewWriter Pipe.new)))).w.Close := by
      simp only [Dump, hopen]
    rcases dumpBody_cases db with ⟨ctx, inner, hw⟩ | ⟨tables, hl, _, hnames⟩
    · have h1 : (deferDbClose db (dumpBody db (NewWriter Pipe.new))).w.werr
          = some (.wrapped ctx inner) := by
        rw [deferDbClose_closed db _ _ hw]; exact hw
      rw [hd, defers_closed _ _ h1, h1] at h
      exact absurd h (by simp)
    · obtain ⟨n, hn⟩ := deferTwClose_delivered
        (deferDbClose db (dumpBody db (NewWriter Pipe.new)))
      have hfinal : headerNames (Dump db).delivered = lit "schema.sql" :: tables.map dataName := by
        rw [hd, Pipe.Close_delivered, hn, deferDbClose_delivered, headerNames_append,
          headerNames_zeros, hnames]
        simp
      refine ⟨tables, hl, ?_, ?_⟩
      · rw [hfinal]; rfl
      · rw [hfinal]; simp

/-- The witness of C6: the database of the concrete scenario is dumped successfully. -/
theorem dump_entry_order_witness :
    (Dump usersDB).werr = some .EOF ∧
    ∃ tables : List tableRef, listTables usersDB = .ok tables ∧
      headerNames (Dump usersDB).delivered
        = lit "schema.sql"
            :: tables.map (fun t => lit "data/" ++ t.schema ++ lit "." ++ t.name ++ lit ".csv") ∧
      (headerNames (Dump usersDB).delivered).length = tables.length + 1 :=
  ⟨by decide, dump_entry_order usersDB (by decide)⟩

/-- C7 (as amended): the key `Upload` sends to the object store is
`<prefix>/<logical-name>_<timestamp>.dump`, followed by `.gz` when `compressed` is true,
where `<timestamp>` is the upload time formatted `YYYY-MM-DD_HH-MM-SS` in the location
`time.Now()` carries, the local time zone of the process; it is the UTC timestamp when
that zone is UTC. -/
theorem upload_key_format (store : GoString → Res GoString) (now : Time)
    (pfx dbName : GoString) (compressed : Bool) :
    (Upload store now pfx dbName compressed).1
      = pfx ++ lit "/" ++ dbName ++ lit "_" ++ now.Format ++ lit ".dump"
          ++ (if compressed then lit ".gz" else []) ∧
    (now.offset = 0 →
      (Upload store now pfx dbName compressed).1 = specKeyUTC now pfx dbName compressed) := by
  have hgz : lit ".dump.gz" = lit ".dump" ++ lit ".gz" := by decide
  have hkey : (Upload store now pfx dbName compressed).1
      = pfx ++ lit "/" ++ dbName ++ lit "_" ++ now.Format ++ lit ".dump"
          ++ (if compressed then lit ".gz" else []) := by
    have h1 : (Upload store now pfx dbName compressed).1 = uploadKey now pfx dbName compressed := by
      cases hs : store (uploadKey now pfx dbName compressed) <;> simp only [Upload, hs]
    rw [h1]
    cases compressed
    · simp [uploadKey]
    · simp [uploadKey, hgz]
  refine ⟨hkey, fun h0 => ?_⟩
  rw [hkey]
  have hu : now.UTC = now := by
    cases now with
    | mk u o => simp only at h0; subst h0; rfl
  simp [specKeyUTC, hu]

/-- The witness of C7: an upload at 2024-11-04 17:27:14 UTC by a process whose zone is
UTC. -/
theorem upload_key_format_witness :
    (Upload (fun k => .ok k) ⟨1730741234, 0⟩ (lit "backups") (lit "shop") true).1
      = lit "backups/shop_2024-11-04_17-27-14.dump.gz" := by
  have h := (upload_key_format (fun k => .ok k) ⟨1730741234, 0⟩ (lit "backups") (lit "shop")
    true).2 rfl
  rw [h]; decide

/-- C7 (as stated) fails when the local zone is not UTC: the same instant, uploaded by a
process three hours east of UTC, gets the local wall clock `20-27-14` in its key, not
the UTC one `17-27-14`. -/
theorem upload_key_not_utc :
    (Upload (fun k => .ok k) ⟨1730741234, 10800⟩ (lit "backups") (lit "shop") false).1
      = lit "backups/shop_2024-11-04_20-27-14.dump" ∧
    specKeyUTC ⟨1730741234, 10800⟩ (lit "backups") (lit "shop") false
      = lit "backups/shop_2024-11-04_17-27-14.dump" ∧
    (Upload (fun k => .ok k) ⟨1730741234, 10800⟩ (lit "backups") (lit "shop") false).1
      ≠ specKeyUTC ⟨1730741234, 10800⟩ (lit "backups") (lit "shop") false := by
  decide

/-- C8 (the code at the failing input): the cursor over `public.users` yields the row
`(1, "Alice")` and then ends with an error reported by `rows.Err()`. `writeTableCSV`
returns that error, but only after it wrote the header of the entry with `Size = 16` and
the 16 bytes of the truncated document; `Dump` then fails with the wrapped error. -/
theorem row_error_after_entry_written :
    (writeTableCSV (usersDBWith 2 none 1 (some (.driver "connection reset")))
        (NewWriter Pipe.new) (lit "public") (lit "users") (lit "data/public.users.csv")).2
      = some (.driver "connection reset") ∧
    (writeTableCSV (usersDBWith 2 none 1 (some (.driver "connection reset")))
        (NewWriter Pipe.new) (lit "public") (lit "users")
        (lit "data/public.users.csv")).1.w.delivered
      = Token.header ⟨lit "data/public.users.csv", 0o600, 16⟩
          :: (lit "id,name\n1,Alice\n").map Token.byte ∧
    headerNames (Dump (usersDBWith 2 none 1 (some (.driver "connection reset")))).delivered
      = [lit "schema.sql", lit "data/public.users.csv"] ∧
    (Dump (usersDBWith 2 none 1 (some (.driver "connection reset")))).werr
      = some (.wrapped (lit "ошибка экспорта таблицы public.users")
          (.driver "connection reset")) := by
  decide

/-- C9 (the code at the failing input): the cursor over the catalog rows of `public.users`
yields the column `id` and then ends with an error before `name` was read.
`buildCreateTable` returns a definition with the single column `id` and no error, and
`Dump` writes the entry `schema.sql` and ends successfully. -/
theorem catalog_cursor_error_ignored :
    buildCreateTable (usersDBWith 1 (some (.driver "connection reset")) 2 none)
        (lit "public") (lit "users")
      = .ok (lit "CREATE TABLE \"public\".\"users\" (\n\t\"id\" integer NOT NULL\n);") ∧
    headerNames (Dump (usersDBWith 1 (some (.driver "connection reset")) 2 none)).delivered
      = [lit "schema.sql", lit "data/public.users.csv"] ∧
    (Dump (usersDBWith 1 (some (.driver "connection reset")) 2 none)).werr = some .EOF := by
  decide

/-- C10: when `sql.Open` fails, or when `listTables` fails (the discovery query is
rejected, a row cannot be scanned, or the iteration ends with a cursor error), the reader
of the stream returned by `Dump` receives no byte at all and then the first failure,
wrapping the underlying error; the deferred `db.Close()`, `tw.Close()` (which fails with
`io.ErrClosedPipe`) and `pw.Close()` do not replace it. -/
theorem failure_before_any_table (db : DB) :
    (∀ e, db.openErr = some e →
      Dump db = { delivered := [],
                  werr := some (.wrapped (lit "ошибка открытия подключения к БД") e) }) ∧
    (∀ e, db.openErr = none → listTables db = .fail e →
      Dump db = { delivered := [],
                  werr := some (.wrapped (lit "ошибка получения списка таблиц") e) }) ∧
    (∀ e, db.tables = .fail e → listTables db = .fail e) ∧
    (∀ rows e, db.tables = .ok rows → scanTables rows.scans [] = .fail e →
      listTables db = .fail e) ∧
    (∀ rows res e, db.tables = .ok rows → scanTables rows.scans [] = .ok res →
      rows.err = some e → listTables db = .fail e) ∧
    (∀ e, ((NewWriter { delivered := [], werr := some e }).Close).2 = some .ErrClosedPipe) := by
  refine ⟨fun e hopen => ?_, fun e hopen hl => ?_, fun e h => ?_, fun rows e h1 h2 => ?_,
    fun rows res e h1 h2 h3 => ?_, fun e => rfl⟩
  · simp only [Dump, hopen]
    rw [defers_closed _ (.wrapped (lit "ошибка открытия подключения к БД") e) rfl]
    rfl
  · have hd : dumpBody db (NewWriter Pipe.new) = (NewWriter Pipe.new).closePipe
        (.wrapped (lit "ошибка получения списка таблиц") e) := by
      simp only [dumpBody, hl]
    have hw : (deferDbClose db (dumpBody db (NewWriter Pipe.new))).w
        = { delivered := [],
            werr := some (.wrapped (lit "ошибка получения списка таблиц") e) } := by
      rw [deferDbClose_closed db _ (.wrapped (lit "ошибка получения списка таблиц") e)
        (by rw [hd]; rfl), hd]
      rfl
    simp only [Dump, hopen]
    rw [defers_closed _ (.wrapped (lit "ошибка получения списка таблиц") e) (by rw [hw]), hw]
  · simp only [listTables, h]
  · simp only [listTables, h1, h2]
  · simp only [listTables, h1, h2, h3]

/-- The witness of C10: a database that cannot be opened, and one whose table discovery
query is rejected while `db.Close()` fails as well. -/
theorem failure_before_any_table_witness :
    Dump { usersDB with openErr := some (.driver "unknown driver") }
      = { delivered := [],
          werr := some (.wrapped (lit "ошибка открытия подключения к БД")
            (.driver "unknown driver")) } ∧
    Dump { usersDB with tables := .fail (.driver "connection refused"),
                        closeErr := some (.driver "close failed") }
      = { delivered := [],
          werr := some (.wrapped (lit "ошибка получения списка таблиц")
            (.driver "connection refused")) } :=
  ⟨(failure_before_any_table _).1 _ rfl,
   (failure_before_any_table _).2.1 _ rfl rfl⟩

end PgS3Backup
